import Mathlib

/-!
# Verification of the k3s-pico-node transport and HTTP layer

Shallow embedding of the transport / HTTP-codec core of the `k3s-pico-node`
firmware (files `src/tcp_connection.c`, `src/http_client.c`, and the
`k3s_request` orchestrator in `src/k3s_client.c`), together with theorems
settling the specification claims about it.

Modelling conventions:
* `uint16_t` ring indices are `Nat` kept below `TCP_RECV_RING_SIZE` (the code
  masks with `& (TCP_RECV_RING_SIZE - 1)` at every store; `x & 2047` on a
  `uint16_t` equals `x % 2048` because `2048` divides `2^16`).
* `size_t` arithmetic that can wrap (`value_buffer_size - 1` in
  `http_get_header`) is modelled explicitly with the wrapped value.
* C byte strings are `List Char` (the buffers hold no interior NUL in any
  scenario the claims touch); the NUL terminator written by `snprintf` is
  modelled explicitly as `NUL`.
* The asynchronous lwIP callbacks fire only inside `cyw43_arch_poll()`; a
  polling loop is modelled by a list of `PollEvent`s, one per poll iteration,
  and the phase deadline elapses exactly when the list is exhausted.
* Fallible functions return `Option`/explicit error `Int`s mirroring the C
  return conventions.
-/

set_option linter.unusedVariables false

/-! ## Ring buffer and TCP connection (src/tcp_connection.c) -/

/-- `#define TCP_RECV_RING_SIZE 2048` (tcp_connection.h). -/
def TCP_RECV_RING_SIZE : Nat := 2048

/-- Modulus of `uint16_t` arithmetic. -/
def UINT16_MOD : Nat := 65536

/-- `tcp_conn_state_t` (tcp_connection.h). -/
inductive TcpState where
  | idle
  | dnsResolving
  | dnsResolved
  | connecting
  | connected
  | error
  | closed
deriving DecidableEq

/-- `TCP_OK` -/
def TCP_OK : Int := 0
/-- `TCP_ERR_INVALID_PARAM` -/
def TCP_ERR_INVALID_PARAM : Int := -1
/-- `TCP_ERR_CONNECT` -/
def TCP_ERR_CONNECT : Int := -3
/-- `TCP_ERR_TIMEOUT` -/
def TCP_ERR_TIMEOUT : Int := -7
/-- `TCP_ERR_CLOSED` -/
def TCP_ERR_CLOSED : Int := -9

/-- `tcp_connection_t` (tcp_connection.h): the pcb pointer is modelled by a
Boolean presence flag, the receive ring by its byte store and the two
`uint16_t` indices. -/
structure TcpConn where
  recv_ring : Nat → Nat
  recv_head : Nat
  recv_tail : Nat
  state : TcpState
  pcb : Bool
  error_code : Int

/-- Every index stored into `recv_head`/`recv_tail` by the code is masked with
`& (TCP_RECV_RING_SIZE - 1)`, so reachable states satisfy this bound. -/
def TcpConn.Wf (s : TcpConn) : Prop :=
  s.recv_head < TCP_RECV_RING_SIZE ∧ s.recv_tail < TCP_RECV_RING_SIZE

/-- `ring_is_empty` (tcp_connection.c line 10). -/
def ring_is_empty (s : TcpConn) : Bool :=
  s.recv_head == s.recv_tail

/-- `ring_available` (tcp_connection.c line 15):
`(head - tail) & (TCP_RECV_RING_SIZE - 1)` on `uint16_t`; the `uint16_t`
subtraction is `(head + 2^16 - tail) mod 2^16` and masking with `2048 - 1`
is `mod 2048`, which `mod 2048` of the un-reduced sum computes because
`2048 ∣ 2^16`. -/
def ring_available (s : TcpConn) : Nat :=
  (s.recv_head + UINT16_MOD - s.recv_tail) % TCP_RECV_RING_SIZE

/-- `ring_free_space` (tcp_connection.c line 20); `ring_available ≤ 2047`
always, so the `uint16_t` subtraction cannot wrap. -/
def ring_free_space (s : TcpConn) : Nat :=
  (TCP_RECV_RING_SIZE - 1) - ring_available s

/-- One iteration of the copy loop in `tcp_recv_callback`
(tcp_connection.c lines 45-46): store at `recv_head`, advance `recv_head`. -/
def ring_write1 (s : TcpConn) (b : Nat) : TcpConn :=
  { s with
    recv_ring := fun i => if i = s.recv_head then b else s.recv_ring i,
    recv_head := (s.recv_head + 1) % TCP_RECV_RING_SIZE }

/-- The copy loop of `tcp_recv_callback` (tcp_connection.c lines 40-54) with
its `copied` counter: bytes are copied in order while free space remains; once
`ring_free_space` hits zero the remaining bytes of the arrival event are
dropped.  (The pbuf chain is flattened into one byte list; the per-pbuf `break`
makes the C loop behave exactly like this single loop.) -/
def tcp_recv_callback_go : TcpConn → List Nat → Nat → TcpConn × Nat
  | s, [], copied => (s, copied)
  | s, b :: rest, copied =>
    if 0 < ring_free_space s then
      tcp_recv_callback_go (ring_write1 s b) rest (copied + 1)
    else (s, copied)

/-- `tcp_recv_callback` (tcp_connection.c lines 25-61), data path
(`err == ERR_OK`, `p ≠ NULL`).  Returns the updated connection and the number
of bytes copied into the ring.  A `p == NULL` (peer close) invocation leaves
the connection untouched (lines 28-34 change no field). -/
def tcp_recv_callback (s : TcpConn) (data : List Nat) : TcpConn × Nat :=
  tcp_recv_callback_go s data 0

/-- The drain loop of `tcp_connection_recv` (tcp_connection.c lines 308-311):
`while (received < buffer_size && !ring_is_empty)` copy from `recv_tail` and
advance it.  The first component is the connection afterwards, the second the
bytes written to the caller's buffer, in order. -/
def ring_drain : TcpConn → Nat → TcpConn × List Nat
  | s, 0 => (s, [])
  | s, n + 1 =>
    if ring_is_empty s then (s, [])
    else
      let b := s.recv_ring s.recv_tail
      let s1 := { s with recv_tail := (s.recv_tail + 1) % TCP_RECV_RING_SIZE }
      let r := ring_drain s1 n
      (r.1, b :: r.2)

/-- Specification-level view of the ring: the bytes currently stored, from
`recv_tail` to `recv_head` in consumption order. -/
def ring_contents (s : TcpConn) : List Nat :=
  (List.range (ring_available s)).map fun i =>
    s.recv_ring ((s.recv_tail + i) % TCP_RECV_RING_SIZE)

/-- `tcp_connection_init` (tcp_connection.c lines 106-118): `memset` to zero,
state `IDLE`, no pcb, ring indices zero. -/
def tcp_connection_init : TcpConn :=
  { recv_ring := fun _ => 0
    recv_head := 0
    recv_tail := 0
    state := TcpState.idle
    pcb := false
    error_code := 0 }

/-- `tcp_connection_close` (tcp_connection.c lines 316-331): release the pcb if
present and set state `CLOSED`.  The ring indices are left as they are. -/
def tcp_connection_close (s : TcpConn) : TcpConn :=
  { s with pcb := false, state := TcpState.closed }

/-- What a single `cyw43_arch_poll()` call can deliver to one connection:
nothing, a data arrival (`tcp_recv_callback` with a pbuf), a graceful peer
close (`tcp_recv_callback` with `p == NULL`, which changes nothing in
tcp_connection.c), or the lwIP error callback. -/
inductive PollEvent where
  | quiet
  | dataArrived (bytes : List Nat)
  | peerClosed
  | tcpError

/-- Effect of one poll iteration on the connection (tcp_connection.c callbacks:
`tcp_recv_callback` lines 25-61, `tcp_err_callback` lines 64-71). -/
def apply_poll_event (s : TcpConn) (e : PollEvent) : TcpConn :=
  match e with
  | PollEvent.quiet => s
  | PollEvent.dataArrived bytes => (tcp_recv_callback s bytes).1
  | PollEvent.peerClosed => s
  | PollEvent.tcpError =>
      { s with state := TcpState.error, error_code := TCP_ERR_CONNECT, pcb := false }

/-- The wait-then-drain body of `tcp_connection_recv` (tcp_connection.c lines
288-313).  The event list holds what each successive `cyw43_arch_poll()`
delivers, and the deadline (`conn->timeout`) is reached for the first time
during the iteration that consumes the final event.  Each iteration mirrors
the C loop order exactly: re-check `ring_is_empty`, poll, check the state
(line 297), then check the deadline (line 301) — so the deadline check fires
right after the last poll *even when that poll has just delivered data*, and
the function returns `received`, still `0`, leaving the data in the ring.
The result carries the C return value, the bytes written to the caller's
buffer, the connection afterwards, and the unconsumed poll budget (empty
exactly when the loop ended by the deadline elapsing).  An empty initial
budget is the degenerate zero-iteration abstraction (in C at least one poll
precedes the first deadline check) and likewise returns `0`. -/
def recv_wait (bufsize : Nat) :
    TcpConn → List PollEvent → Int × List Nat × TcpConn × List PollEvent
  | s, events =>
    if ring_is_empty s then
      match events with
      | [] => (0, [], s, [])
      | e :: rest =>
        let s1 := apply_poll_event s e
        if s1.state = TcpState.connected then
          match rest with
          | [] => (0, [], s1, [])
          | _ :: _ => recv_wait bufsize s1 rest
        else (0, [], s1, rest)
    else
      let r := ring_drain s bufsize
      (Int.ofNat r.2.length, r.2, r.1, events)

/-- `tcp_connection_recv` (tcp_connection.c lines 279-314).  Returns the C
return value, the bytes written to the caller's buffer, the connection
afterwards, and the remaining poll budget (see `recv_wait`). -/
def tcp_connection_recv (s : TcpConn) (bufsize : Nat) (events : List PollEvent) :
    Int × List Nat × TcpConn × List PollEvent :=
  if bufsize = 0 ∨ s.state ≠ TcpState.connected then (TCP_ERR_INVALID_PARAM, [], s, events)
  else if s.pcb = false then (TCP_ERR_CLOSED, [], s, events)
  else recv_wait bufsize s events

/-! ## Producer/consumer traces with ghost counters (for the conservation law) -/

/-- One observable ring operation: an arrival event handled by
`tcp_recv_callback`, or a consumer read of up to `n` bytes. -/
inductive RingOp where
  | arrive (data : List Nat)
  | read (n : Nat)

/-- Ghost counters: total bytes offered by the network, drained by the
consumer, and dropped on overflow.  The C code keeps no such counters (that is
the point of claim C4); they are specification bookkeeping. -/
structure RingCounters where
  produced : Nat
  consumed : Nat
  dropped : Nat
deriving DecidableEq

/-- Execute one `RingOp`, updating the ghost counters from what the embedded
code actually did (`copied` return of the callback, length of the drained
list). -/
def ring_step : TcpConn × RingCounters → RingOp → TcpConn × RingCounters
  | (s, k), RingOp.arrive data =>
    let r := tcp_recv_callback s data
    (r.1, { k with
            produced := k.produced + data.length
            dropped := k.dropped + (data.length - r.2) })
  | (s, k), RingOp.read n =>
    let r := ring_drain s n
    (r.1, { k with consumed := k.consumed + r.2.length })

/-- Run a whole trace from a freshly initialised connection. -/
def ring_run (ops : List RingOp) : TcpConn × RingCounters :=
  ops.foldl ring_step (tcp_connection_init, ⟨0, 0, 0⟩)

/-! ## HTTP request builder (src/http_client.c lines 19-117) -/

/-- The NUL terminator written by `snprintf`. -/
def NUL : Char := Char.ofNat 0

/-- `"\r\n"` -/
def CRLF : List Char := ("\r\n").data

/-- `http_method_t` (http_client.h). -/
inductive HttpMethod where
  | get
  | post
  | patch
deriving DecidableEq

/-- `method_to_string` (http_client.c lines 9-16). -/
def method_to_string : HttpMethod → List Char
  | HttpMethod.get => ("GET").data
  | HttpMethod.post => ("POST").data
  | HttpMethod.patch => ("PATCH").data

/-- Bytes of the request line `METHOD SP path SP HTTP/1.1 CRLF`
(http_client.c lines 33-35). -/
def request_line (method : HttpMethod) (path : List Char) : List Char :=
  method_to_string method ++ (" ").data ++ path ++ (" HTTP/1.1\r\n").data

/-- `Host: <host>:<port>\r\n` (http_client.c lines 42-43). -/
def host_header (host : List Char) (port : Nat) : List Char :=
  ("Host: ").data ++ host ++ (":").data ++ (Nat.repr port).data ++ CRLF

/-- (http_client.c lines 50-51). -/
def user_agent_header : List Char := ("User-Agent: k3s-pico-node/1.0\r\n").data

/-- (http_client.c lines 58-59). -/
def accept_header : List Char := ("Accept: application/json\r\n").data

/-- (http_client.c lines 66-67). -/
def connection_header : List Char := ("Connection: close\r\n").data

/-- `Content-Type: <ct>\r\n` (http_client.c lines 79-80). -/
def content_type_header (ct : List Char) : List Char :=
  ("Content-Type: ").data ++ ct ++ CRLF

/-- `Content-Length: <n>\r\n` (http_client.c lines 87-88). -/
def content_length_header (n : Nat) : List Char :=
  ("Content-Length: ").data ++ (Nat.repr n).data ++ CRLF

/-- Default content type used when `content_type == NULL` with a body
(http_client.c line 78). -/
def default_content_type : List Char := ("application/json").data

/-- The header lines `http_build_request` emits, in order.  `Content-Type` and
`Content-Length` are emitted exactly when `body` is present — the C code keys
on `body != NULL` (line 74), not on the method. -/
def http_request_header_lines (method : HttpMethod) (host : List Char) (port : Nat)
    (path : List Char) (body : Option (List Char)) (content_type : Option (List Char)) :
    List (List Char) :=
  [request_line method path, host_header host port, user_agent_header,
   accept_header, connection_header] ++
  (match body with
   | none => []
   | some bd => [content_type_header (content_type.getD default_content_type),
                 content_length_header bd.length])

/-- All byte pieces of the serialized request, in output order: the header
lines, the blank line, and the body bytes when present. -/
def http_request_pieces (method : HttpMethod) (host : List Char) (port : Nat)
    (path : List Char) (body : Option (List Char)) (content_type : Option (List Char)) :
    List (List Char) :=
  http_request_header_lines method host port path body content_type ++ [CRLF] ++
  (match body with
   | none => []
   | some bd => [bd])

/-- The full serialized request as the code emits it on success. -/
def http_request_bytes (method : HttpMethod) (host : List Char) (port : Nat)
    (path : List Char) (body : Option (List Char)) (content_type : Option (List Char)) :
    List Char :=
  (http_request_pieces method host port path body content_type).flatten

/-- Overwrite `buf[off ...]` with `data`, clipped to the buffer (the fixed
caller-owned `char buffer[]`); the buffer length never changes. -/
def bufWrite (buf : List Char) (off : Nat) (data : List Char) : List Char :=
  let d := data.take (buf.length - off)
  buf.take off ++ d ++ buf.drop (off + d.length)

/-- `snprintf(buf + off, sz, ...)` producing the byte string `s`: writes at
most `sz - 1` bytes of `s` plus a NUL terminator (nothing when `sz = 0`), and
returns (in the C code) the full untruncated length `s.length`. -/
def snprintf_write (buf : List Char) (off sz : Nat) (s : List Char) : List Char :=
  if sz = 0 then buf else bufWrite buf off (s.take (sz - 1) ++ [NUL])

/-- The chain of `snprintf` steps of `http_build_request`: each step writes one
piece at the current offset and fails (like `written + n >= buffer_size`,
http_client.c lines 37, 44, 52, 60, 68, 81, 89, 96, 110) when the piece does
not fit, leaving whatever `snprintf` already wrote in the buffer. -/
def build_steps (bsz : Nat) : List (List Char) → List Char → Nat → Option Nat × List Char
  | [], buf, written => (some written, buf)
  | p :: rest, buf, written =>
    let buf1 := snprintf_write buf written (bsz - written) p
    if bsz ≤ written + p.length then (none, buf1)
    else build_steps bsz rest buf1 (written + p.length)

/-- `http_build_request` (http_client.c lines 19-117) over an explicit buffer
state.  Returns the C return value (`-1` or the byte count written) and the
final contents of the caller's buffer.  The body, when present, is appended by
`memcpy` after an explicit bounds check (lines 102-106), with no NUL and no
truncation. -/
def http_build_request (buffer_size : Nat) (buf0 : List Char) (method : HttpMethod)
    (host : List Char) (port : Nat) (path : List Char)
    (body : Option (List Char)) (content_type : Option (List Char)) : Int × List Char :=
  let hdrs := http_request_header_lines method host port path body content_type
  match body with
  | none =>
    match build_steps buffer_size (hdrs ++ [CRLF]) buf0 0 with
    | (none, b) => (-1, b)
    | (some w, b) => (Int.ofNat w, b)
  | some bd =>
    match build_steps buffer_size (hdrs ++ [CRLF]) buf0 0 with
    | (none, b) => (-1, b)
    | (some w, b) =>
      if buffer_size ≤ w + bd.length then (-1, b)
      else (Int.ofNat (w + bd.length), bufWrite b w bd)

/-! ## HTTP response parsing (src/http_client.c lines 119-272) -/

/-- `tolower` on ASCII as `strcasecmp_custom` uses it. -/
def lowerC (c : Char) : Char :=
  if 'A' ≤ c ∧ c ≤ 'Z' then Char.ofNat (c.toNat + 32) else c

/-- `strncasecmp_custom(line, pat, pat.length) == 0` (http_client.c lines
132-142): the first `pat.length` characters of `line` exist and match `pat`
case-insensitively.  (If `line` ends first the C comparison returns the
non-zero difference against the remaining pattern character.) -/
def startsWithCI : List Char → List Char → Bool
  | _, [] => true
  | [], _ :: _ => false
  | a :: as, b :: bs => lowerC a == lowerC b && startsWithCI as bs

/-- `strstr(l, pat)` on the NUL-terminated buffer: index of the first
occurrence of `pat`. -/
def findSub (pat : List Char) : List Char → Option Nat
  | [] => if pat.isEmpty then some 0 else none
  | c :: rest =>
    if pat.isPrefixOf (c :: rest) then some 0
    else (findSub pat rest).map (· + 1)

/-- `strchr(l, target)`. -/
def findChar (target : Char) : List Char → Option Nat
  | [] => none
  | c :: rest => if c = target then some 0 else (findChar target rest).map (· + 1)

/-- The whitespace class skipped by C `atoi`. -/
def isSpaceChar (c : Char) : Bool :=
  c == ' ' || c == '\t' || c == '\n' || c == Char.ofNat 11 || c == Char.ofNat 12 || c == '\r'

/-- Accumulate leading decimal digits. -/
def atoi_digits : List Char → Nat → Nat
  | [], acc => acc
  | c :: rest, acc =>
    if c.isDigit then atoi_digits rest (acc * 10 + (c.toNat - 48)) else acc

/-- C `atoi`: skip whitespace, optional sign, leading digits.  (The `int`
overflow of enormous digit strings is not modelled; no claim involves one.) -/
def atoi (l : List Char) : Int :=
  match l.dropWhile isSpaceChar with
  | '-' :: rest => - Int.ofNat (atoi_digits rest 0)
  | '+' :: rest => Int.ofNat (atoi_digits rest 0)
  | l1 => Int.ofNat (atoi_digits l1 0)

/-- `http_response_t` (http_client.h): the `body` pointer is modelled as the
offset `body_off` into the response buffer. -/
structure HttpResponse where
  status_code : Int
  content_length : Int
  chunked : Bool
  body_off : Nat
  body_length : Nat
deriving DecidableEq

/-- The header loop of `http_parse_response` (http_client.c lines 230-260):
from position `pos`, find the next CRLF; none ⇒ malformed; at distance 0 ⇒
blank line, the body starts at `pos + 2`; otherwise record `Content-Length` /
`Transfer-Encoding: chunked` when the line starts with those names and advance
past the CRLF.  The structural fuel only bounds the iteration count: every
iteration advances `pos` past a CRLF inside the buffer, so `l.length + 1`
iterations can never be reached (each iteration needs 2 fresh buffer bytes),
and the fuel branch is dead for the initial fuel used by
`http_parse_response`. -/
def parse_headers (l : List Char) : Nat → Nat → Int → Bool → Option (Nat × Int × Bool)
  | 0, _, _, _ => none
  | fuel + 1, pos, cl, ch =>
    match findSub CRLF (l.drop pos) with
    | none => none
    | some i =>
      if i = 0 then some (pos + 2, cl, ch)
      else
        let line := l.drop pos
        let cl1 := if startsWithCI line (("Content-Length:").data) then atoi (line.drop 15) else cl
        let ch1 := if startsWithCI line (("Transfer-Encoding:").data) &&
                      (findSub (("chunked").data) line).isSome then true else ch
        parse_headers l fuel (pos + i + 2) cl1 ch1

/-- `http_parse_response` (http_client.c lines 198-272) on the buffer
contents `l` (NUL-free) and the passed `response_length`.  `none` is the C
`-1`.  Status code: `atoi` after the first space anywhere in the buffer
(line 216 `strchr`); body length: `response_length - header_length` when
positive (lines 262-269). -/
def http_parse_response (l : List Char) (rlen : Nat) : Option HttpResponse :=
  if rlen = 0 then none
  else
    match findSub CRLF l with
    | none => none
    | some lineEnd =>
      match findChar ' ' l with
      | none => none
      | some sp =>
        let status := atoi (l.drop (sp + 1))
        match parse_headers l (l.length + 1) (lineEnd + 2) 0 false with
        | none => none
        | some r =>
          let bodyLen := if r.1 < rlen then rlen - r.1 else 0
          some { status_code := status, content_length := r.2.1, chunked := r.2.2,
                 body_off := r.1, body_length := bodyLen }

/-! ## Header extraction (src/http_client.c lines 145-195) -/

/-- `(size_t)0 - 1`, the wrapped value of `value_buffer_size - 1` when
`value_buffer_size == 0`. -/
def SIZE_T_MAX : Nat := 18446744073709551615

/-- The value of a matched header line: skip the name and the colon, skip
leading spaces/tabs, take up to the line end (http_client.c lines 161-175). -/
def header_value_of_line (line name : List Char) : List Char :=
  ((line.drop (name.length + 1)).dropWhile (fun c => c == ' ' || c == '\t')).takeWhile
    (fun c => !(c == '\r' || c == '\n'))

/-- The line-scanning loop of `http_get_header` (http_client.c lines 155-192)
on the remaining NUL-terminated buffer.  On a match it returns the bytes
`memcpy`ed into `value_buffer` and the total number of bytes stored there
(value bytes plus the NUL terminator); `none` is the C `-1` (header not
found).  `value_len = value_buffer_size - 1` is `size_t` arithmetic and wraps
to `SIZE_T_MAX` when `value_buffer_size = 0` (line 177).  The structural fuel
only bounds the iteration count: every iteration consumes at least one buffer
character, so the initial fuel `buf.length + 1` can never run out. -/
def http_get_header_go (name : List Char) (vbs : Nat) : Nat → List Char → Option (List Char × Nat)
  | 0, _ => none
  | _, [] => none
  | fuel + 1, line =>
    if startsWithCI line name && ((line.drop name.length).head? == some ':') then
      let value := header_value_of_line line name
      let value_len := if vbs ≤ value.length then (if vbs = 0 then SIZE_T_MAX else vbs - 1)
                       else value.length
      some (value.take value_len, value_len + 1)
    else
      match line.dropWhile (fun c => !(c == '\n')) with
      | [] => none
      | _ :: tl => http_get_header_go name vbs fuel tl

/-- `http_get_header` (http_client.c lines 145-195). -/
def http_get_header (buf name : List Char) (vbs : Nat) : Option (List Char × Nat) :=
  http_get_header_go name vbs (buf.length + 1) buf

/-! ## The orchestrator's response stage (k3s_client.c, `k3s_request`) -/

/-- The response-classification stage of `k3s_request` (k3s_client.c lines
427-457), entered after `http_parse_response` succeeded.  Inputs: the response
buffer, the parsed response, whether the caller passed a response output
buffer, and its size.  Output: the C return value and the bytes stored into
the caller's output buffer (`none` = the output buffer is left untouched).
On `status_code >= 400` the code prints the error body to the console,
sets `ret = -1` and jumps to `cleanup`, skipping the copy-out block. -/
def k3s_handle_response (buffer : List Char) (resp : HttpResponse)
    (response_present : Bool) (response_size : Nat) : Int × Option (List Char) :=
  if 400 ≤ resp.status_code then (-1, none)
  else if response_present = true ∧ 0 < response_size then
    if 0 < resp.body_length then
      let copy_len := min resp.body_length (response_size - 1)
      (0, some ((buffer.drop resp.body_off).take copy_len))
    else (0, some [])
  else (0, none)

/-! ## Concrete fixture states used by witnesses and counterexamples -/

/-- A connected connection with an empty ring. -/
def emptyConn : TcpConn :=
  { recv_ring := fun _ => 0
    recv_head := 0
    recv_tail := 0
    state := TcpState.connected
    pcb := true
    error_code := 0 }

/-- A connected connection whose ring is full (`ring_free_space = 0`). -/
def fullConn : TcpConn :=
  { recv_ring := fun _ => 0
    recv_head := 2047
    recv_tail := 0
    state := TcpState.connected
    pcb := true
    error_code := 0 }

/-- A connected connection with non-zero ring indices. -/
def exampleDirtyConn : TcpConn :=
  { recv_ring := fun _ => 0
    recv_head := 5
    recv_tail := 3
    state := TcpState.connected
    pcb := true
    error_code := 0 }

/-- A parsed response with an error status (status 404, two body bytes). -/
def exampleErrorResponse : HttpResponse :=
  { status_code := 404
    content_length := 2
    chunked := false
    body_off := 38
    body_length := 2 }

/-! ## Ring-buffer arithmetic helpers -/

theorem ring_idx_ne (h t i : Nat) (h1 : h < 2048) (h2 : t < 2048)
    (hav : i < (h + 65536 - t) % 2048) : (t + i) % 2048 ≠ h := by
  omega

theorem ring_idx_last (h t : Nat) (h1 : h < 2048) (h2 : t < 2048) :
    (t + (h + 65536 - t) % 2048) % 2048 = h := by
  omega

theorem ring_avail_head_succ (h t : Nat) (h1 : h < 2048) (h2 : t < 2048)
    (hfree : (h + 65536 - t) % 2048 < 2047) :
    ((h + 1) % 2048 + 65536 - t) % 2048 = (h + 65536 - t) % 2048 + 1 := by
  omega

theorem ring_avail_tail_succ (h t : Nat) (h1 : h < 2048) (h2 : t < 2048)
    (hpos : 0 < (h + 65536 - t) % 2048) :
    (h + 65536 - (t + 1) % 2048) % 2048 = (h + 65536 - t) % 2048 - 1 := by
  omega

/-! ## Ring-buffer structural lemmas -/

theorem ring_available_lt (s : TcpConn) : ring_available s < TCP_RECV_RING_SIZE := by
  simp only [ring_available, TCP_RECV_RING_SIZE]
  omega

theorem length_ring_contents (s : TcpConn) : (ring_contents s).length = ring_available s := by
  simp [ring_contents]

theorem ring_is_empty_iff (s : TcpConn) (hwf : s.Wf) :
    ring_is_empty s = true ↔ ring_available s = 0 := by
  obtain ⟨h1, h2⟩ := hwf
  simp only [TCP_RECV_RING_SIZE] at h1 h2
  simp only [ring_is_empty, beq_iff_eq, ring_available, TCP_RECV_RING_SIZE, UINT16_MOD]
  omega

theorem ring_contents_getElem (s : TcpConn) (i : Nat) (h : i < (ring_contents s).length) :
    (ring_contents s)[i] = s.recv_ring ((s.recv_tail + i) % TCP_RECV_RING_SIZE) := by
  simp [ring_contents]

theorem ring_write1_wf (s : TcpConn) (b : Nat) (hwf : s.Wf) : (ring_write1 s b).Wf := by
  obtain ⟨h1, h2⟩ := hwf
  constructor <;> simp only [ring_write1, TCP_RECV_RING_SIZE] at * <;> omega

theorem ring_write1_available (s : TcpConn) (b : Nat) (hwf : s.Wf)
    (hfree : 0 < ring_free_space s) :
    ring_available (ring_write1 s b) = ring_available s + 1 := by
  obtain ⟨h1, h2⟩ := hwf
  simp only [TCP_RECV_RING_SIZE] at h1 h2
  simp only [ring_write1]
  simp only [ring_free_space, ring_available, TCP_RECV_RING_SIZE, UINT16_MOD] at hfree ⊢
  omega

theorem ring_write1_contents (s : TcpConn) (b : Nat) (hwf : s.Wf)
    (hfree : 0 < ring_free_space s) :
    ring_contents (ring_write1 s b) = ring_contents s ++ [b] := by
  have havail := ring_write1_available s b hwf hfree
  obtain ⟨h1, h2⟩ := hwf
  simp only [TCP_RECV_RING_SIZE] at h1 h2
  apply List.ext_getElem
  · simp [length_ring_contents, havail]
  · intro i hi1 hi2
    rw [ring_contents_getElem _ _ hi1]
    have hiav : i < ring_available s + 1 := by
      rw [length_ring_contents, havail] at hi1; exact hi1
    rcases Nat.lt_or_ge i (ring_available s) with hlt | hge
    · have hne : (s.recv_tail + i) % TCP_RECV_RING_SIZE ≠ s.recv_head := by
        simp only [TCP_RECV_RING_SIZE]
        apply ring_idx_ne _ _ _ h1 h2
        simpa only [ring_available, TCP_RECV_RING_SIZE, UINT16_MOD] using hlt
      simp only [ring_write1, if_neg hne]
      rw [List.getElem_append_left (by rw [length_ring_contents]; exact hlt)]
      rw [ring_contents_getElem _ _ (by rw [length_ring_contents]; exact hlt)]
    · have hieq : i = ring_available s := by omega
      have heq : (s.recv_tail + i) % TCP_RECV_RING_SIZE = s.recv_head := by
        rw [hieq]
        simp only [ring_available, TCP_RECV_RING_SIZE, UINT16_MOD]
        exact ring_idx_last _ _ h1 h2
      simp only [ring_write1, if_pos heq]
      have hlen : i = (ring_contents s).length := by rw [length_ring_contents]; exact hieq
      subst hlen
      simp

theorem tcp_recv_callback_go_spec (data : List Nat) :
    ∀ (s : TcpConn) (copied : Nat), s.Wf →
      (tcp_recv_callback_go s data copied).1.Wf
      ∧ (tcp_recv_callback_go s data copied).1.recv_tail = s.recv_tail
      ∧ (tcp_recv_callback_go s data copied).1.state = s.state
      ∧ (tcp_recv_callback_go s data copied).1.pcb = s.pcb
      ∧ (tcp_recv_callback_go s data copied).1.error_code = s.error_code
      ∧ (tcp_recv_callback_go s data copied).2 = copied + min data.length (ring_free_space s)
      ∧ ring_contents (tcp_recv_callback_go s data copied).1
          = ring_contents s ++ data.take (ring_free_space s) := by
  induction data with
  | nil =>
    intro s copied hwf
    simp [tcp_recv_callback_go, hwf]
  | cons b rest ih =>
    intro s copied hwf
    by_cases hfree : 0 < ring_free_space s
    · have hwf1 := ring_write1_wf s b hwf
      obtain ⟨iwf, itail, istate, ipcb, ierr, icnt, icont⟩ := ih (ring_write1 s b) (copied + 1) hwf1
      have havail := ring_write1_available s b hwf hfree
      have hfree1 : ring_free_space (ring_write1 s b) = ring_free_space s - 1 := by
        simp only [ring_free_space, havail]; omega
      obtain ⟨k, hk⟩ : ∃ k, ring_free_space s = k + 1 := ⟨ring_free_space s - 1, by omega⟩
      simp only [tcp_recv_callback_go, if_pos hfree]
      refine ⟨iwf, ?_, istate, ipcb, ierr, ?_, ?_⟩
      · rw [itail]; rfl
      · rw [icnt, hfree1, hk]
        simp only [List.length_cons]
        omega
      · rw [icont, ring_write1_contents s b hwf hfree, hfree1, hk]
        simp only [Nat.add_sub_cancel, List.take_succ_cons, List.append_assoc,
          List.singleton_append]
    · have hfree0 : ring_free_space s = 0 := by omega
      simp [tcp_recv_callback_go, if_neg hfree, hfree0, hwf]

theorem tcp_recv_callback_spec (s : TcpConn) (data : List Nat) (hwf : s.Wf) :
    (tcp_recv_callback s data).1.Wf
    ∧ (tcp_recv_callback s data).1.recv_tail = s.recv_tail
    ∧ (tcp_recv_callback s data).1.state = s.state
    ∧ (tcp_recv_callback s data).1.pcb = s.pcb
    ∧ (tcp_recv_callback s data).1.error_code = s.error_code
    ∧ (tcp_recv_callback s data).2 = min data.length (ring_free_space s)
    ∧ ring_contents (tcp_recv_callback s data).1
        = ring_contents s ++ data.take (ring_free_space s) := by
  have h := tcp_recv_callback_go_spec data s 0 hwf
  simpa [tcp_recv_callback] using h

theorem ring_contents_cons (s : TcpConn) (hwf : s.Wf) (hne : ring_is_empty s = false) :
    ring_contents s =
      s.recv_ring s.recv_tail ::
        ring_contents { s with recv_tail := (s.recv_tail + 1) % TCP_RECV_RING_SIZE } := by
  obtain ⟨h1, h2⟩ := hwf
  simp only [TCP_RECV_RING_SIZE] at h1 h2
  have hpos : 0 < ring_available s := by
    rcases Nat.eq_zero_or_pos (ring_available s) with h0 | h0
    · exfalso
      have := (ring_is_empty_iff s ⟨by simpa [TCP_RECV_RING_SIZE] using h1,
        by simpa [TCP_RECV_RING_SIZE] using h2⟩).mpr h0
      rw [hne] at this; exact Bool.false_ne_true this
    · exact h0
  have havail1 :
      ring_available { s with recv_tail := (s.recv_tail + 1) % TCP_RECV_RING_SIZE }
        = ring_available s - 1 := by
    simp only [ring_available, TCP_RECV_RING_SIZE, UINT16_MOD] at hpos ⊢
    exact ring_avail_tail_succ _ _ h1 h2 hpos
  apply List.ext_getElem
  · simp only [length_ring_contents, List.length_cons, havail1]
    omega
  · intro i hi1 hi2
    rw [ring_contents_getElem _ _ hi1]
    match i with
    | 0 =>
      have : (s.recv_tail + 0) % TCP_RECV_RING_SIZE = s.recv_tail := by
        simp only [TCP_RECV_RING_SIZE]; omega
      rw [this]
      rfl
    | j + 1 =>
      have hj : j < (ring_contents { s with recv_tail := (s.recv_tail + 1) % TCP_RECV_RING_SIZE }).length := by
        simp only [List.length_cons] at hi2
        omega
      simp only [List.getElem_cons_succ]
      rw [ring_contents_getElem _ _ hj]
      show s.recv_ring ((s.recv_tail + (j + 1)) % TCP_RECV_RING_SIZE)
        = s.recv_ring (((s.recv_tail + 1) % TCP_RECV_RING_SIZE + j) % TCP_RECV_RING_SIZE)
      congr 1
      simp only [TCP_RECV_RING_SIZE]
      omega

theorem ring_drain_spec (n : Nat) :
    ∀ s : TcpConn, s.Wf →
      (ring_drain s n).1.Wf
      ∧ (ring_drain s n).1.recv_head = s.recv_head
      ∧ (ring_drain s n).1.recv_ring = s.recv_ring
      ∧ (ring_drain s n).1.state = s.state
      ∧ (ring_drain s n).1.pcb = s.pcb
      ∧ (ring_drain s n).1.error_code = s.error_code
      ∧ (ring_drain s n).2 = (ring_contents s).take n
      ∧ ring_contents (ring_drain s n).1 = (ring_contents s).drop n := by
  induction n with
  | zero =>
    intro s hwf
    simp [ring_drain, hwf]
  | succ n ih =>
    intro s hwf
    by_cases hemp : ring_is_empty s = true
    · have hav : ring_available s = 0 := (ring_is_empty_iff s hwf).mp hemp
      have hcont : ring_contents s = [] := by
        rw [← List.length_eq_zero]
        rw [length_ring_contents, hav]
      simp [ring_drain, hemp, hcont, hwf]
    · have hemp' : ring_is_empty s = false := by
        simpa using hemp
      have hwf1 : TcpConn.Wf { s with recv_tail := (s.recv_tail + 1) % TCP_RECV_RING_SIZE } := by
        refine ⟨hwf.1, ?_⟩
        simp only [TCP_RECV_RING_SIZE]
        omega
      have hcons := ring_contents_cons s hwf hemp'
      obtain ⟨iwf, ihead, iring, istate, ipcb, ierr, itake, idrop⟩ :=
        ih { s with recv_tail := (s.recv_tail + 1) % TCP_RECV_RING_SIZE } hwf1
      simp only [ring_drain, hemp', Bool.false_eq_true, if_false]
      refine ⟨iwf, ihead, iring, istate, ipcb, ierr, ?_, ?_⟩
      · rw [itake, hcons]
        simp [List.take_succ_cons]
      · rw [idrop, hcons]
        simp [List.drop_succ_cons]

/-! ## Unconditional index-ownership lemmas -/

theorem tcp_recv_callback_go_tail (data : List Nat) :
    ∀ (s : TcpConn) (copied : Nat),
      (tcp_recv_callback_go s data copied).1.recv_tail = s.recv_tail := by
  induction data with
  | nil => intro s copied; rfl
  | cons b rest ih =>
    intro s copied
    by_cases hfree : 0 < ring_free_space s
    · simp only [tcp_recv_callback_go, if_pos hfree]
      rw [ih]
      rfl
    · simp only [tcp_recv_callback_go, if_neg hfree]

theorem ring_drain_head (n : Nat) :
    ∀ s : TcpConn, (ring_drain s n).1.recv_head = s.recv_head
      ∧ (ring_drain s n).1.recv_ring = s.recv_ring := by
  induction n with
  | zero => intro s; exact ⟨rfl, rfl⟩
  | succ n ih =>
    intro s
    by_cases hemp : ring_is_empty s = true
    · simp only [ring_drain]
      rw [if_pos hemp]
      exact ⟨rfl, rfl⟩
    · simp only [ring_drain]
      rw [if_neg hemp]
      exact ih _

/-! ## Trace-level conservation -/

theorem ring_step_inv (p : TcpConn × RingCounters) (op : RingOp)
    (hwf : p.1.Wf)
    (hinv : p.2.produced = p.2.consumed + p.2.dropped + ring_available p.1) :
    (ring_step p op).1.Wf
    ∧ (ring_step p op).2.produced =
        (ring_step p op).2.consumed + (ring_step p op).2.dropped
          + ring_available (ring_step p op).1 := by
  obtain ⟨s, k⟩ := p
  cases op with
  | arrive data =>
    obtain ⟨iwf, -, -, -, -, icnt, icont⟩ := tcp_recv_callback_spec s data hwf
    have hlen : ring_available (tcp_recv_callback s data).1
        = ring_available s + min data.length (ring_free_space s) := by
      rw [← length_ring_contents, icont, List.length_append, List.length_take,
        length_ring_contents]
      simp [Nat.min_comm]
    have hmin : min data.length (ring_free_space s) ≤ data.length := Nat.min_le_left _ _
    simp only [ring_step]
    refine ⟨iwf, ?_⟩
    simp only [hlen, icnt] at *
    simp only [TcpConn.Wf] at hwf
    omega
  | read n =>
    obtain ⟨iwf, -, -, -, -, -, itake, idrop⟩ := ring_drain_spec n s hwf
    have hlen : ring_available (ring_drain s n).1
        = ring_available s - (ring_drain s n).2.length := by
      rw [← length_ring_contents, idrop, List.length_drop, length_ring_contents,
        itake, List.length_take, length_ring_contents]
      omega
    have hout : (ring_drain s n).2.length = min n (ring_available s) := by
      rw [itake, List.length_take, length_ring_contents]
    simp only [ring_step]
    refine ⟨iwf, ?_⟩
    simp only [hlen, hout] at *
    omega

theorem ring_run_aux (ops : List RingOp) :
    ∀ p : TcpConn × RingCounters, p.1.Wf →
      p.2.produced = p.2.consumed + p.2.dropped + ring_available p.1 →
      (ops.foldl ring_step p).1.Wf
      ∧ (ops.foldl ring_step p).2.produced =
          (ops.foldl ring_step p).2.consumed + (ops.foldl ring_step p).2.dropped
            + ring_available (ops.foldl ring_step p).1 := by
  induction ops with
  | nil => intro p hwf hinv; exact ⟨hwf, hinv⟩
  | cons op rest ih =>
    intro p hwf hinv
    obtain ⟨hwf1, hinv1⟩ := ring_step_inv p op hwf hinv
    exact ih (ring_step p op) hwf1 hinv1

/-- **C4 (amended).**  Overflow accounting: along every trace of arrival
events (`tcp_recv_callback`) and consumer reads (the drain loop of
`tcp_connection_recv`) starting from a fresh connection, the conservation
equation `produced = consumed + dropped + available` holds, where `dropped`
counts exactly the bytes each arrival event discarded once `ring_free_space`
hit zero.  (The observable-drop-indicator part of the original claim is false:
see the counterexample — the code only emits a debug print.) -/
theorem claim_C4 (ops : List RingOp) :
    (ring_run ops).2.produced =
      (ring_run ops).2.consumed + (ring_run ops).2.dropped
        + ring_available (ring_run ops).1 := by
  have hwf : tcp_connection_init.Wf := by
    constructor <;> decide
  have hinv : (0 : Nat) = 0 + 0 + ring_available tcp_connection_init := by decide
  exact (ring_run_aux ops (tcp_connection_init, ⟨0, 0, 0⟩) hwf hinv).2

/-- **C4 counterexample.**  With the ring full, an arriving byte is dropped
(`copied = 0` out of one offered byte) and the connection — including every
field the consumer can observe (ring storage, indices, state, error code) — is
bit-for-bit unchanged: no drop indicator becomes observable to the consumer,
refuting the claimed observability.  (tcp_connection.c line 51 only emits
`DEBUG_PRINT`.) -/
theorem claim_C4_counterexample :
    tcp_recv_callback fullConn [9] = (fullConn, 0)
    ∧ ring_free_space fullConn = 0 := by
  exact ⟨rfl, by decide⟩

/-- **C5 (confirmed).**  The reported available count is a masked difference
and hence never exceeds `TCP_RECV_RING_SIZE - 1`; the arrival callback
(producer) never moves `recv_tail`; the drain loop (consumer) never moves
`recv_head` nor the stored bytes; and the producer keeps one slot free: an
arrival event copies exactly `min length ring_free_space` bytes, where
`ring_free_space = (capacity - 1) - available`. -/
theorem claim_C5 :
    (∀ s : TcpConn, ring_available s ≤ TCP_RECV_RING_SIZE - 1)
    ∧ (∀ (s : TcpConn) (data : List Nat),
        (tcp_recv_callback s data).1.recv_tail = s.recv_tail)
    ∧ (∀ (s : TcpConn) (n : Nat),
        (ring_drain s n).1.recv_head = s.recv_head
        ∧ (ring_drain s n).1.recv_ring = s.recv_ring)
    ∧ (∀ (s : TcpConn) (data : List Nat), s.Wf →
        (tcp_recv_callback s data).2 = min data.length (ring_free_space s)) := by
  refine ⟨?_, ?_, ?_, ?_⟩
  · intro s
    have := ring_available_lt s
    omega
  · intro s data
    exact tcp_recv_callback_go_tail data s 0
  · intro s n
    exact ring_drain_head n s
  · intro s data hwf
    exact (tcp_recv_callback_spec s data hwf).2.2.2.2.2.1

/-- **C5 witness.** -/
theorem claim_C5_witness :
    ring_available emptyConn ≤ TCP_RECV_RING_SIZE - 1
    ∧ (tcp_recv_callback emptyConn [7, 8]).2 = min 2 (ring_free_space emptyConn) := by
  exact ⟨claim_C5.1 emptyConn, claim_C5.2.2.2 emptyConn [7, 8] (by constructor <;> decide)⟩

/-- **C6 (confirmed).**  FIFO order: an arrival event appends exactly the
fitting prefix of its bytes to the ring contents, the drain loop returns
exactly a prefix of the ring contents in order, and writing a sequence that
fits into free space into an empty ring and immediately draining it returns
exactly the original sequence. -/
theorem claim_C6 (s : TcpConn) (hwf : s.Wf) :
    (∀ data : List Nat,
        ring_contents (tcp_recv_callback s data).1
          = ring_contents s ++ data.take (ring_free_space s))
    ∧ (∀ n : Nat, (ring_drain s n).2 = (ring_contents s).take n)
    ∧ (∀ data : List Nat, ring_is_empty s = true → data.length ≤ ring_free_space s →
        (ring_drain (tcp_recv_callback s data).1 data.length).2 = data) := by
  refine ⟨?_, ?_, ?_⟩
  · intro data
    exact (tcp_recv_callback_spec s data hwf).2.2.2.2.2.2
  · intro n
    exact (ring_drain_spec n s hwf).2.2.2.2.2.2.1
  · intro data hemp hfit
    obtain ⟨iwf, -, -, -, -, -, icont⟩ := tcp_recv_callback_spec s data hwf
    have hav : ring_available s = 0 := (ring_is_empty_iff s hwf).mp hemp
    have hcont0 : ring_contents s = [] := by
      rw [← List.length_eq_zero, length_ring_contents, hav]
    have hfull : ring_contents (tcp_recv_callback s data).1 = data := by
      rw [icont, hcont0, List.nil_append, List.take_of_length_le hfit]
    rw [(ring_drain_spec data.length (tcp_recv_callback s data).1 iwf).2.2.2.2.2.2.1, hfull,
      List.take_of_length_le (Nat.le_refl _)]

/-- **C6 witness.** -/
theorem claim_C6_witness :
    (ring_drain (tcp_recv_callback emptyConn [1, 2, 3]).1 3).2 = [1, 2, 3] := by
  exact (claim_C6 emptyConn (by constructor <;> decide)).2.2 [1, 2, 3] rfl (by decide)

/-! ## tcp_connection_recv -/

theorem apply_poll_event_wf (s : TcpConn) (e : PollEvent) (hwf : s.Wf) :
    (apply_poll_event s e).Wf := by
  cases e with
  | quiet => exact hwf
  | dataArrived bytes => exact (tcp_recv_callback_spec s bytes hwf).1
  | peerClosed => exact hwf
  | tcpError => exact hwf

theorem recv_wait_spec (bufsize : Nat) (events : List PollEvent) :
    ∀ s : TcpConn, s.Wf → s.state = TcpState.connected → 1 ≤ bufsize →
      (recv_wait bufsize s events).1 = Int.ofNat (recv_wait bufsize s events).2.1.length
      ∧ ((recv_wait bufsize s events).2.1 = [] →
          (recv_wait bufsize s events).2.2.1.state ≠ TcpState.connected
          ∨ (recv_wait bufsize s events).2.2.2 = []) := by
  induction events with
  | nil =>
    intro s hwf hconn hbuf
    by_cases hemp : ring_is_empty s = true
    · simp only [recv_wait]
      rw [if_pos hemp]
      exact ⟨rfl, fun _ => Or.inr rfl⟩
    · simp only [recv_wait]
      rw [if_neg hemp]
      exact ⟨rfl, fun _ => Or.inr rfl⟩
  | cons e rest ih =>
    intro s hwf hconn hbuf
    by_cases hemp : ring_is_empty s = true
    · simp only [recv_wait]
      rw [if_pos hemp]
      by_cases hst : (apply_poll_event s e).state = TcpState.connected
      · rw [if_pos hst]
        cases rest with
        | nil => exact ⟨rfl, fun _ => Or.inr rfl⟩
        | cons e2 rest2 =>
          exact ih (apply_poll_event s e) (apply_poll_event_wf s e hwf) hst hbuf
      · rw [if_neg hst]
        exact ⟨rfl, fun _ => Or.inl hst⟩
    · simp only [recv_wait]
      rw [if_neg hemp]
      refine ⟨rfl, fun h => ?_⟩
      exfalso
      have hemp' : ring_is_empty s = false := by simpa using hemp
      have hav : 0 < ring_available s := by
        rcases Nat.eq_zero_or_pos (ring_available s) with h0 | h0
        · have := (ring_is_empty_iff s hwf).mpr h0
          rw [hemp'] at this
          exact absurd this (by simp)
        · exact h0
      have h2 : (ring_drain s bufsize).2 = [] := h
      have h3 := congrArg List.length h2
      rw [(ring_drain_spec bufsize s hwf).2.2.2.2.2.2.1, List.length_take,
        length_ring_contents] at h3
      simp at h3
      omega

/-- **C2 (amended).**  For a connected connection with a non-empty caller
buffer, `tcp_connection_recv` returns exactly the number of bytes it drained
into the caller's buffer: a positive count when data was available at a loop
check before the deadline, and `0` otherwise.  A `0` return means the
connection left the `CONNECTED` state during the wait (which only the lwIP
error callback causes — the graceful-close callback changes nothing, last
conjunct) or the deadline elapsed (the poll budget ran out) — and in the
latter case data may have arrived in the very last poll and be sitting
undrained in the ring, because the deadline check at tcp_connection.c line
301 runs after each poll.  `TCP_ERR_TIMEOUT` is never returned (the timeout
path returns `received`, still `0`, line 303), and `0` does not characterize
graceful peer close. -/
theorem claim_C2 (s : TcpConn) (bufsize : Nat) (events : List PollEvent)
    (hwf : s.Wf) (hconn : s.state = TcpState.connected) (hpcb : s.pcb = true)
    (hbuf : 1 ≤ bufsize) :
    (tcp_connection_recv s bufsize events).1
        = Int.ofNat (tcp_connection_recv s bufsize events).2.1.length
    ∧ (tcp_connection_recv s bufsize events).1 ≠ TCP_ERR_TIMEOUT
    ∧ ((tcp_connection_recv s bufsize events).2.1 = [] →
        (tcp_connection_recv s bufsize events).2.2.1.state ≠ TcpState.connected
        ∨ (tcp_connection_recv s bufsize events).2.2.2 = [])
    ∧ (∀ t : TcpConn, apply_poll_event t PollEvent.peerClosed = t) := by
  have hcond : ¬(bufsize = 0 ∨ s.state ≠ TcpState.connected) := by
    push_neg
    exact ⟨by omega, hconn⟩
  have hpcb' : ¬(s.pcb = false) := by rw [hpcb]; simp
  have hred : tcp_connection_recv s bufsize events = recv_wait bufsize s events := by
    simp only [tcp_connection_recv]
    rw [if_neg hcond, if_neg hpcb']
  obtain ⟨h1, h2⟩ := recv_wait_spec bufsize events s hwf hconn hbuf
  rw [hred]
  refine ⟨h1, ?_, h2, fun t => rfl⟩
  rw [h1]
  intro hc
  have hnn : (0 : Int) ≤ Int.ofNat (recv_wait bufsize s events).2.1.length :=
    Int.ofNat_nonneg _
  rw [hc] at hnn
  exact absurd hnn (by decide)

/-- **C2 witness.** -/
theorem claim_C2_witness :
    (tcp_connection_recv emptyConn 10 []).1
        = Int.ofNat (tcp_connection_recv emptyConn 10 []).2.1.length
    ∧ (tcp_connection_recv emptyConn 10 []).1 ≠ TCP_ERR_TIMEOUT := by
  have h := claim_C2 emptyConn 10 [] (by constructor <;> decide) rfl rfl (by omega)
  exact ⟨h.1, h.2.1⟩

/-- **C2 counterexample.**  Two reachable paths refute the claim as stated.
(a) The deadline elapses on a connected, empty-ring connection with a 10-byte
caller buffer and no peer close: the code returns `0`, not the timeout error
`TCP_ERR_TIMEOUT = -7` the claim requires, and that `0` is indistinguishable
from a graceful peer close though the peer never closed.  (b) Data arrives in
the very last poll, then the deadline check (tcp_connection.c line 301, run
after every poll) fires: the code still returns `0` with the connection
`CONNECTED` and the ring non-empty — so the return value `0` neither means
the peer closed nor that no data arrived. -/
theorem claim_C2_counterexample :
    ((tcp_connection_recv emptyConn 10 [PollEvent.quiet, PollEvent.quiet]).1 = 0
      ∧ (0 : Int) ≠ TCP_ERR_TIMEOUT)
    ∧ ((tcp_connection_recv emptyConn 10 [PollEvent.dataArrived [7]]).1 = 0
      ∧ ring_is_empty (tcp_connection_recv emptyConn 10
          [PollEvent.dataArrived [7]]).2.2.1 = false
      ∧ (tcp_connection_recv emptyConn 10 [PollEvent.dataArrived [7]]).2.2.1.state
          = TcpState.connected) := by
  exact ⟨⟨rfl, by decide⟩, rfl, rfl, rfl⟩

/-! ## tcp_connection_close -/

/-- **C9 (amended).**  `tcp_connection_close` is idempotent and safe from any
state: it releases the handle (`pcb` becomes absent), leaves the connection in
the `CLOSED` state, and a second call changes nothing.  It does **not** reset
the ring buffer indices — they (and the stored bytes) are left exactly as they
were; the indices are reset by `tcp_connection_init` at the start of the next
request instead. -/
theorem claim_C9 (s : TcpConn) :
    tcp_connection_close (tcp_connection_close s) = tcp_connection_close s
    ∧ (tcp_connection_close s).pcb = false
    ∧ (tcp_connection_close s).state = TcpState.closed
    ∧ (tcp_connection_close s).recv_head = s.recv_head
    ∧ (tcp_connection_close s).recv_tail = s.recv_tail
    ∧ (tcp_connection_close s).recv_ring = s.recv_ring := by
  exact ⟨rfl, rfl, rfl, rfl, rfl, rfl⟩

/-- **C9 counterexample.**  Closing a connection whose ring indices are
`head = 5`, `tail = 3` leaves them at `5` and `3`: contrary to the claim, the
ring buffer indices are not reset by `tcp_connection_close` (compare
`tcp_connection_init`, which zeroes them). -/
theorem claim_C9_counterexample :
    (tcp_connection_close exampleDirtyConn).recv_head = 5
    ∧ (tcp_connection_close exampleDirtyConn).recv_tail = 3
    ∧ tcp_connection_init.recv_head = 0
    ∧ (tcp_connection_close exampleDirtyConn).recv_head ≠ 0 := by
  exact ⟨rfl, rfl, rfl, by decide⟩

/-! ## The orchestrator response stage -/

/-- **C1 (amended).**  When the parsed response has status ≥ 400, `k3s_request`
classifies the request as an application-level failure (returns `-1`) but does
**not** return the parsed response to the caller: the copy-out of the body into
the caller's response buffer is skipped (the buffer is left untouched), and the
error body is only printed to the console. -/
theorem claim_C1 (buffer : List Char) (resp : HttpResponse)
    (response_present : Bool) (response_size : Nat)
    (herr : 400 ≤ resp.status_code) :
    k3s_handle_response buffer resp response_present response_size = (-1, none) := by
  simp only [k3s_handle_response]
  rw [if_pos herr]

/-- **C1 witness.** -/
theorem claim_C1_witness :
    k3s_handle_response (("x").data) exampleErrorResponse true 64 = (-1, none) := by
  exact claim_C1 (("x").data) exampleErrorResponse true 64 (by decide)

/-- **C1 counterexample.**  A parsed 404 response with a 2-byte body, a caller
that supplied a 64-byte response buffer: the stage returns `-1` and stores
nothing into the caller's buffer (`none`), so the parsed response (status,
headers, body) is *not* returned to the caller, contrary to the claim; only
the `-1` classification crosses the boundary. -/
theorem claim_C1_counterexample :
    k3s_handle_response (("HTTP/1.1 404 Not Found\r\n\r\nno").data) exampleErrorResponse
        true 64 = (-1, none)
    ∧ exampleErrorResponse.body_length = 2 := by
  exact ⟨rfl, rfl⟩

/-! ## Buffer-write lemmas for the request builder -/

theorem bufWrite_length (buf : List Char) (off : Nat) (data : List Char)
    (h : off ≤ buf.length) : (bufWrite buf off data).length = buf.length := by
  simp only [bufWrite]
  simp only [List.length_append, List.length_take, List.length_drop]
  omega

theorem bufWrite_take (buf : List Char) (off k : Nat) (data : List Char)
    (h1 : off + k ≤ buf.length) (h2 : k ≤ data.length) :
    (bufWrite buf off data).take (off + k) = buf.take off ++ data.take k := by
  have hA : (buf.take off).length = off := by rw [List.length_take]; omega
  simp only [bufWrite]
  rw [List.take_append_eq_append_take, List.take_append_eq_append_take]
  rw [List.take_of_length_le (by rw [hA]; omega)]
  rw [hA]
  have h3 : off + k - off = k := by omega
  rw [h3]
  have h4 : off + k - (buf.take off ++ data.take (buf.length - off)).length = 0 := by
    rw [List.length_append, hA, List.length_take]
    omega
  rw [h4, List.take_zero, List.append_nil]
  rw [List.take_take]
  have h5 : min k (buf.length - off) = k := by omega
  rw [h5]

theorem build_steps_spec (bsz : Nat) (pieces : List (List Char)) :
    ∀ (buf : List Char) (w : Nat), buf.length = bsz → w < bsz →
      ((build_steps bsz pieces buf w).1 = none ↔ bsz ≤ w + (pieces.map List.length).sum)
      ∧ (∀ w1 buf1, build_steps bsz pieces buf w = (some w1, buf1) →
          w1 = w + (pieces.map List.length).sum
          ∧ w1 < bsz
          ∧ buf1.length = bsz
          ∧ buf1.take w1 = buf.take w ++ pieces.flatten) := by
  induction pieces with
  | nil =>
    intro buf w hlen hw
    constructor
    · simp only [build_steps, List.map_nil, List.sum_nil]
      constructor
      · intro h; simp at h
      · intro h; exfalso; omega
    · intro w1 buf1 h
      simp only [build_steps] at h
      injection h with ha hb
      injection ha with ha
      subst ha
      subst hb
      refine ⟨by simp, hw, hlen, by simp⟩
  | cons p rest ih =>
    intro buf w hlen hw
    by_cases hfit : bsz ≤ w + p.length
    · constructor
      · simp only [build_steps]
        rw [if_pos hfit]
        simp only [List.map_cons, List.sum_cons]
        constructor
        · intro _; omega
        · intro _; trivial
      · intro w1 buf1 h
        simp only [build_steps] at h
        rw [if_pos hfit] at h
        exact absurd h (by simp)
    · have hw1 : w + p.length < bsz := by omega
      have hsnp : snprintf_write buf w (bsz - w) p = bufWrite buf w (p ++ [NUL]) := by
        simp only [snprintf_write]
        rw [if_neg (by omega : ¬(bsz - w = 0)),
          List.take_of_length_le (by omega : p.length ≤ bsz - w - 1)]
      have hlen1 : (bufWrite buf w (p ++ [NUL])).length = bsz := by
        rw [bufWrite_length buf w _ (by omega)]
        exact hlen
      have htake1 : (bufWrite buf w (p ++ [NUL])).take (w + p.length) = buf.take w ++ p := by
        rw [bufWrite_take buf w p.length (p ++ [NUL]) (by omega) (by simp)]
        congr 1
        exact List.take_left p [NUL]
      constructor
      · simp only [build_steps]
        rw [if_neg hfit, hsnp]
        rw [(ih (bufWrite buf w (p ++ [NUL])) (w + p.length) hlen1 hw1).1]
        simp only [List.map_cons, List.sum_cons]
        omega
      · intro w1 buf1' h
        simp only [build_steps] at h
        rw [if_neg hfit, hsnp] at h
        obtain ⟨hw1', hlt, hlen', htk⟩ :=
          (ih (bufWrite buf w (p ++ [NUL])) (w + p.length) hlen1 hw1).2 w1 buf1' h
        refine ⟨?_, hlt, hlen', ?_⟩
        · simp only [List.map_cons, List.sum_cons]
          omega
        · rw [htk, htake1, List.flatten_cons, List.append_assoc]

theorem build_steps_zero (pieces : List (List Char)) (buf : List Char) (w : Nat)
    (hne : pieces ≠ []) : (build_steps 0 pieces buf w).1 = none := by
  cases pieces with
  | nil => exact absurd rfl hne
  | cons p rest =>
    simp only [build_steps]
    rw [if_pos (by omega)]

/-- **C3 (amended).**  Any step that would exceed the destination buffer fails
the whole build: the return value is `-1` exactly when the serialized request
(headers, blank line, body) does not fit strictly inside the buffer, and the
full byte count otherwise — no partial count is ever reported.  (The claim's
"zero bytes written to the destination buffer" part is false: the failing
`snprintf` steps leave a truncated, NUL-terminated prefix in the caller's
buffer — see the counterexample.) -/
theorem claim_C3 (bsz : Nat) (buf0 : List Char) (m : HttpMethod) (host : List Char)
    (port : Nat) (path : List Char) (body ct : Option (List Char))
    (hlen : buf0.length = bsz) :
    (http_build_request bsz buf0 m host port path body ct).1 =
      if bsz ≤ (http_request_bytes m host port path body ct).length then -1
      else Int.ofNat (http_request_bytes m host port path body ct).length := by
  cases body with
  | none =>
    have hL : (http_request_bytes m host port path none ct).length
        = ((http_request_header_lines m host port path none ct ++ [CRLF]).map
            List.length).sum := by
      simp [http_request_bytes, http_request_pieces, List.length_flatten]
    by_cases hbz : bsz = 0
    · subst hbz
      have h0 := build_steps_zero
        (http_request_header_lines m host port path none ct ++ [CRLF]) buf0 0 (by simp)
      simp only [http_build_request]
      rcases hB : build_steps 0
        (http_request_header_lines m host port path none ct ++ [CRLF]) buf0 0 with ⟨o, bb⟩
      rw [hB] at h0
      cases o with
      | none =>
        dsimp only
        rw [if_pos (Nat.zero_le _)]
      | some w => simp at h0
    · have hbpos : 0 < bsz := by omega
      obtain ⟨hiff, hsome⟩ := build_steps_spec bsz
        (http_request_header_lines m host port path none ct ++ [CRLF]) buf0 0 hlen hbpos
      simp only [http_build_request]
      rcases hB : build_steps bsz
        (http_request_header_lines m host port path none ct ++ [CRLF]) buf0 0 with ⟨o, bb⟩
      rw [hB] at hiff
      cases o with
      | none =>
        dsimp only
        simp only [true_iff, eq_self_iff_true] at hiff
        have hle : bsz ≤ (http_request_bytes m host port path none ct).length := by
          rw [hL]; omega
        rw [if_pos hle]
      | some w =>
        obtain ⟨hw, hlt, -, -⟩ := hsome w bb hB
        dsimp only
        have hgt : ¬ bsz ≤ (http_request_bytes m host port path none ct).length := by
          rw [hL]; omega
        rw [if_neg hgt, hL, hw]
        simp
  | some bd =>
    have hL : (http_request_bytes m host port path (some bd) ct).length
        = ((http_request_header_lines m host port path (some bd) ct ++ [CRLF]).map
            List.length).sum + bd.length := by
      simp [http_request_bytes, http_request_pieces, List.length_flatten]
      omega
    by_cases hbz : bsz = 0
    · subst hbz
      have h0 := build_steps_zero
        (http_request_header_lines m host port path (some bd) ct ++ [CRLF]) buf0 0 (by simp)
      simp only [http_build_request]
      rcases hB : build_steps 0
        (http_request_header_lines m host port path (some bd) ct ++ [CRLF]) buf0 0 with ⟨o, bb⟩
      rw [hB] at h0
      cases o with
      | none =>
        dsimp only
        rw [if_pos (Nat.zero_le _)]
      | some w => simp at h0
    · have hbpos : 0 < bsz := by omega
      obtain ⟨hiff, hsome⟩ := build_steps_spec bsz
        (http_request_header_lines m host port path (some bd) ct ++ [CRLF]) buf0 0 hlen hbpos
      simp only [http_build_request]
      rcases hB : build_steps bsz
        (http_request_header_lines m host port path (some bd) ct ++ [CRLF]) buf0 0 with ⟨o, bb⟩
      rw [hB] at hiff
      cases o with
      | none =>
        dsimp only
        simp only [true_iff, eq_self_iff_true] at hiff
        have hle : bsz ≤ (http_request_bytes m host port path (some bd) ct).length := by
          rw [hL]; omega
        rw [if_pos hle]
      | some w =>
        obtain ⟨hw, hlt, -, -⟩ := hsome w bb hB
        dsimp only
        by_cases hfin : bsz ≤ w + bd.length
        · rw [if_pos hfin]
          have hle : bsz ≤ (http_request_bytes m host port path (some bd) ct).length := by
            rw [hL]; omega
          rw [if_pos hle]
        · rw [if_neg hfin]
          have hgt : ¬ bsz ≤ (http_request_bytes m host port path (some bd) ct).length := by
            rw [hL]; omega
          rw [if_neg hgt, hL, hw]
          simp

/-- **C3 witness.** -/
theorem claim_C3_witness :
    (http_build_request 4 ([' ', ' ', ' ', ' ']) HttpMethod.get (("h").data) 80
        (("/foo").data) none none).1 = -1
    ∧ (http_build_request 1024 (List.replicate 1024 NUL) HttpMethod.get (("h").data) 80
        (("/foo").data) none none).1
      = Int.ofNat (http_request_bytes HttpMethod.get (("h").data) 80
          (("/foo").data) none none).length := by
  constructor
  · rw [claim_C3 4 ([' ', ' ', ' ', ' ']) HttpMethod.get (("h").data) 80
      (("/foo").data) none none (by decide)]
    decide
  · rw [claim_C3 1024 (List.replicate 1024 NUL) HttpMethod.get (("h").data) 80
      (("/foo").data) none none (by rw [List.length_replicate])]
    rw [if_neg (by decide)]

/-- **C3 counterexample.**  Building `GET /foo` into a 4-byte buffer fails with
`-1`, but the buffer is not left untouched: the first `snprintf` already
stored the truncated prefix `"GET\0"` in it.  "Zero bytes written to the
destination buffer" is false; only the *reported count* is withheld. -/
theorem claim_C3_counterexample :
    http_build_request 4 ([' ', ' ', ' ', ' ']) HttpMethod.get (("h").data) 80
        (("/foo").data) none none
      = (-1, ['G', 'E', 'T', NUL])
    ∧ ['G', 'E', 'T', NUL] ≠ [' ', ' ', ' ', ' '] := by
  exact ⟨by decide, by decide⟩

/-! ## Header-line discrimination lemmas -/

theorem list_ne_of_headQ {α : Type} (l1 l2 : List α) (i : Nat) (a b : α)
    (h1 : l1[i]? = some a) (h2 : l2[i]? = some b) (hne : a ≠ b) : l1 ≠ l2 := by
  intro e
  rw [e, h2] at h1
  injection h1 with hba
  exact hne hba.symm

theorem content_length_header_ne_request_line (n : Nat) (m : HttpMethod) (path : List Char) :
    content_length_header n ≠ request_line m path := by
  cases m with
  | get => exact list_ne_of_headQ _ _ 0 'C' 'G' rfl rfl (by decide)
  | post => exact list_ne_of_headQ _ _ 0 'C' 'P' rfl rfl (by decide)
  | patch => exact list_ne_of_headQ _ _ 0 'C' 'P' rfl rfl (by decide)

theorem content_length_header_ne_host_header (n : Nat) (host : List Char) (port : Nat) :
    content_length_header n ≠ host_header host port :=
  list_ne_of_headQ _ _ 0 'C' 'H' rfl rfl (by decide)

theorem content_length_header_ne_user_agent (n : Nat) :
    content_length_header n ≠ user_agent_header :=
  list_ne_of_headQ _ _ 0 'C' 'U' rfl rfl (by decide)

theorem content_length_header_ne_accept (n : Nat) :
    content_length_header n ≠ accept_header :=
  list_ne_of_headQ _ _ 0 'C' 'A' rfl rfl (by decide)

theorem content_length_header_ne_connection (n : Nat) :
    content_length_header n ≠ connection_header :=
  list_ne_of_headQ _ _ 3 't' 'n' rfl rfl (by decide)

theorem content_type_header_ne_request_line (c : List Char) (m : HttpMethod) (path : List Char) :
    content_type_header c ≠ request_line m path := by
  cases m with
  | get => exact list_ne_of_headQ _ _ 0 'C' 'G' rfl rfl (by decide)
  | post => exact list_ne_of_headQ _ _ 0 'C' 'P' rfl rfl (by decide)
  | patch => exact list_ne_of_headQ _ _ 0 'C' 'P' rfl rfl (by decide)

theorem content_type_header_ne_host_header (c : List Char) (host : List Char) (port : Nat) :
    content_type_header c ≠ host_header host port :=
  list_ne_of_headQ _ _ 0 'C' 'H' rfl rfl (by decide)

theorem content_type_header_ne_user_agent (c : List Char) :
    content_type_header c ≠ user_agent_header :=
  list_ne_of_headQ _ _ 0 'C' 'U' rfl rfl (by decide)

theorem content_type_header_ne_accept (c : List Char) :
    content_type_header c ≠ accept_header :=
  list_ne_of_headQ _ _ 0 'C' 'A' rfl rfl (by decide)

theorem content_type_header_ne_connection (c : List Char) :
    content_type_header c ≠ connection_header :=
  list_ne_of_headQ _ _ 3 't' 'n' rfl rfl (by decide)

/-! ## Successful builds place the full request in the buffer -/

theorem http_build_request_success_bytes (bsz : Nat) (buf0 : List Char) (m : HttpMethod)
    (host : List Char) (port : Nat) (path : List Char) (body ct : Option (List Char))
    (hlen : buf0.length = bsz)
    (hfit : (http_request_bytes m host port path body ct).length < bsz) :
    ((http_build_request bsz buf0 m host port path body ct).2).take
        (http_request_bytes m host port path body ct).length
      = http_request_bytes m host port path body ct := by
  have hbpos : 0 < bsz := by omega
  cases body with
  | none =>
    have hL : (http_request_bytes m host port path none ct).length
        = ((http_request_header_lines m host port path none ct ++ [CRLF]).map
            List.length).sum := by
      simp [http_request_bytes, http_request_pieces, List.length_flatten]
    have hBytes : http_request_bytes m host port path none ct
        = (http_request_header_lines m host port path none ct ++ [CRLF]).flatten := by
      simp [http_request_bytes, http_request_pieces]
    obtain ⟨hiff, hsome⟩ := build_steps_spec bsz
      (http_request_header_lines m host port path none ct ++ [CRLF]) buf0 0 hlen hbpos
    simp only [http_build_request]
    rcases hB : build_steps bsz
      (http_request_header_lines m host port path none ct ++ [CRLF]) buf0 0 with ⟨o, bb⟩
    rw [hB] at hiff
    cases o with
    | none =>
      exfalso
      simp only [eq_self_iff_true, true_iff] at hiff
      rw [hL] at hfit
      omega
    | some w =>
      obtain ⟨hw, hlt, hblen, htk⟩ := hsome w bb hB
      dsimp only
      have hwL : (http_request_bytes m host port path none ct).length = w := by
        rw [hL]
        omega
      rw [hwL, htk, hBytes]
      simp
  | some bd =>
    have hL : (http_request_bytes m host port path (some bd) ct).length
        = ((http_request_header_lines m host port path (some bd) ct ++ [CRLF]).map
            List.length).sum + bd.length := by
      simp [http_request_bytes, http_request_pieces, List.length_flatten]
      omega
    have hBytes : http_request_bytes m host port path (some bd) ct
        = (http_request_header_lines m host port path (some bd) ct ++ [CRLF]).flatten ++ bd := by
      simp [http_request_bytes, http_request_pieces]
    obtain ⟨hiff, hsome⟩ := build_steps_spec bsz
      (http_request_header_lines m host port path (some bd) ct ++ [CRLF]) buf0 0 hlen hbpos
    simp only [http_build_request]
    rcases hB : build_steps bsz
      (http_request_header_lines m host port path (some bd) ct ++ [CRLF]) buf0 0 with ⟨o, bb⟩
    rw [hB] at hiff
    cases o with
    | none =>
      exfalso
      simp only [eq_self_iff_true, true_iff] at hiff
      rw [hL] at hfit
      omega
    | some w =>
      obtain ⟨hw, hlt, hblen, htk⟩ := hsome w bb hB
      have hLw : (http_request_bytes m host port path (some bd) ct).length
          = w + bd.length := by
        rw [hL]
        omega
      have hfin : ¬ bsz ≤ w + bd.length := by
        rw [hLw] at hfit
        omega
      dsimp only
      rw [if_neg hfin]
      dsimp only
      rw [hLw, bufWrite_take bb w bd.length bd (by omega) (Nat.le_refl _),
        List.take_length, htk, hBytes]
      simp

/-- **C7 (amended).**  For every successful `http_build_request`, the built
request carries a `Content-Type` header and a `Content-Length` header whose
value is the exact byte length of the body exactly when a body is supplied —
the code keys these headers on `body != NULL`, not on the method.  A build
without a body (GET included) carries neither header and no body bytes; a GET
built *with* a body does carry them (see the counterexample).  The third
conjunct grounds the header-line view in the buffer: on success the buffer
holds exactly the serialized pieces. -/
theorem claim_C7 (m : HttpMethod) (host : List Char) (port : Nat) (path : List Char)
    (body ct : Option (List Char)) :
    (∀ bd, body = some bd →
        content_type_header (ct.getD default_content_type)
            ∈ http_request_header_lines m host port path body ct
        ∧ content_length_header bd.length ∈ http_request_header_lines m host port path body ct
        ∧ http_request_bytes m host port path body ct
            = (http_request_header_lines m host port path body ct).flatten ++ CRLF ++ bd)
    ∧ (body = none →
        (∀ n, content_length_header n ∉ http_request_header_lines m host port path body ct)
        ∧ (∀ c, content_type_header c ∉ http_request_header_lines m host port path body ct)
        ∧ http_request_bytes m host port path body ct
            = (http_request_header_lines m host port path body ct).flatten ++ CRLF)
    ∧ (∀ (bsz : Nat) (buf0 : List Char), buf0.length = bsz →
        (http_request_bytes m host port path body ct).length < bsz →
        ((http_build_request bsz buf0 m host port path body ct).2).take
            (http_request_bytes m host port path body ct).length
          = http_request_bytes m host port path body ct) := by
  refine ⟨?_, ?_, ?_⟩
  · intro bd hbd
    subst hbd
    refine ⟨?_, ?_, ?_⟩
    · simp [http_request_header_lines]
    · simp [http_request_header_lines]
    · simp [http_request_bytes, http_request_pieces]
  · intro hnone
    subst hnone
    refine ⟨?_, ?_, ?_⟩
    · intro n hmem
      simp only [http_request_header_lines, List.append_nil, List.mem_cons,
        List.not_mem_nil, or_false] at hmem
      rcases hmem with h | h | h | h | h
      · exact content_length_header_ne_request_line n m path h
      · exact content_length_header_ne_host_header n host port h
      · exact content_length_header_ne_user_agent n h
      · exact content_length_header_ne_accept n h
      · exact content_length_header_ne_connection n h
    · intro c hmem
      simp only [http_request_header_lines, List.append_nil, List.mem_cons,
        List.not_mem_nil, or_false] at hmem
      rcases hmem with h | h | h | h | h
      · exact content_type_header_ne_request_line c m path h
      · exact content_type_header_ne_host_header c host port h
      · exact content_type_header_ne_user_agent c h
      · exact content_type_header_ne_accept c h
      · exact content_type_header_ne_connection c h
    · simp [http_request_bytes, http_request_pieces]
  · intro bsz buf0 hlen hfit
    exact http_build_request_success_bytes bsz buf0 m host port path body ct hlen hfit

/-- **C7 witness.** -/
theorem claim_C7_witness :
    content_length_header 2 ∈ http_request_header_lines HttpMethod.post (("h").data) 80
        (("/x").data) (some (("{}").data)) none
    ∧ (∀ n, content_length_header n ∉ http_request_header_lines HttpMethod.get
        (("h").data) 80 (("/foo").data) none none) := by
  constructor
  · have h := (claim_C7 HttpMethod.post (("h").data) 80 (("/x").data)
      (some (("{}").data)) none).1 (("{}").data) rfl
    exact h.2.1
  · exact ((claim_C7 HttpMethod.get (("h").data) 80 (("/foo").data) none none).2.1 rfl).1

set_option maxRecDepth 40000 in
/-- **C7 counterexample.**  `http_build_request` with method GET *and* a body
succeeds (return ≥ 0, a 200-byte buffer) and the serialized request does carry
a `Content-Length: 1` header — the header is keyed on the body's presence and
not on the method, so "a GET request never carries a Content-Length header or
a body" is false as stated. -/
theorem claim_C7_counterexample :
    (0 : Int) ≤ (http_build_request 200 (List.replicate 200 NUL) HttpMethod.get
        (("h").data) 1 (("/").data) (some (("x").data)) none).1
    ∧ (findSub (("Content-Length: 1\r\n").data)
        (http_request_bytes HttpMethod.get (("h").data) 1 (("/").data)
          (some (("x").data)) none)).isSome = true := by
  exact ⟨by decide, by decide⟩

/-! ## strstr lemmas -/

theorem findSub_some (pat : List Char) :
    ∀ (l : List Char) (i : Nat), findSub pat l = some i →
      pat.isPrefixOf (l.drop i) = true ∧ i + pat.length ≤ l.length := by
  intro l
  induction l with
  | nil =>
    intro i h
    simp only [findSub] at h
    by_cases hp : pat.isEmpty
    · rw [if_pos hp] at h
      injection h with h
      subst h
      have hpe : pat = [] := by
        cases pat with
        | nil => rfl
        | cons a as => simp [List.isEmpty] at hp
      subst hpe
      exact ⟨rfl, by simp⟩
    · rw [if_neg hp] at h
      exact absurd h (by simp)
  | cons c rest ih =>
    intro i h
    simp only [findSub] at h
    by_cases hp : pat.isPrefixOf (c :: rest) = true
    · rw [if_pos hp] at h
      injection h with h
      subst h
      refine ⟨by simpa using hp, ?_⟩
      have hle := (List.isPrefixOf_iff_prefix.mp hp).length_le
      simpa using hle
    · rw [if_neg hp] at h
      cases hfs : findSub pat rest with
      | none => rw [hfs] at h; exact absurd h (by simp)
      | some j =>
        rw [hfs] at h
        injection h with h
        obtain ⟨h1, h2⟩ := ih j hfs
        subst h
        constructor
        · simpa using h1
        · simp only [List.length_cons]
          omega

theorem findSub_none (pat : List Char) (hne : pat ≠ []) :
    ∀ l : List Char, findSub pat l = none →
      ∀ i, ¬ pat.isPrefixOf (l.drop i) = true := by
  intro l
  induction l with
  | nil =>
    intro h i
    rw [List.drop_nil]
    cases pat with
    | nil => exact absurd rfl hne
    | cons a as => simp [List.isPrefixOf]
  | cons c rest ih =>
    intro h i
    simp only [findSub] at h
    by_cases hp : pat.isPrefixOf (c :: rest) = true
    · rw [if_pos hp] at h
      exact absurd h (by simp)
    · rw [if_neg hp] at h
      have hrest : findSub pat rest = none := by
        cases hfs : findSub pat rest with
        | none => rfl
        | some j => rw [hfs] at h; exact absurd h (by simp)
      match i with
      | 0 => simpa using hp
      | j + 1 => simpa using ih hrest j

theorem crlf_splice (l : List Char) (a : Nat)
    (h1 : CRLF.isPrefixOf (l.drop a) = true)
    (h2 : CRLF.isPrefixOf (l.drop (a + 2)) = true) :
    (("\r\n\r\n").data).isPrefixOf (l.drop a) = true := by
  obtain ⟨t1, ht1⟩ := List.isPrefixOf_iff_prefix.mp h1
  have e2 : l.drop (a + 2) = t1 := by
    have hdd : (l.drop a).drop 2 = l.drop (a + 2) := by
      rw [List.drop_drop, Nat.add_comm]
    rw [← hdd, ← ht1]
    rfl
  obtain ⟨t2, ht2⟩ := List.isPrefixOf_iff_prefix.mp h2
  apply List.isPrefixOf_iff_prefix.mpr
  refine ⟨t2, ?_⟩
  have ht12 : t1 = CRLF ++ t2 := by rw [← e2, ← ht2]
  rw [← ht1, ht12]
  rfl

/-! ## The parser rejects inputs without the blank-line terminator -/

theorem parse_headers_finds_terminator (l : List Char) :
    ∀ (fuel pos : Nat) (cl : Int) (ch : Bool) (r : Nat × Int × Bool),
      2 ≤ pos → CRLF.isPrefixOf (l.drop (pos - 2)) = true →
      parse_headers l fuel pos cl ch = some r →
      ∃ j, (("\r\n\r\n").data).isPrefixOf (l.drop j) = true := by
  intro fuel
  induction fuel with
  | zero =>
    intro pos cl ch r _ _ h
    exact absurd h (by simp [parse_headers])
  | succ fuel ih =>
    intro pos cl ch r hpos hprev h
    simp only [parse_headers] at h
    cases hfs : findSub CRLF (l.drop pos) with
    | none => rw [hfs] at h; exact absurd h (by simp)
    | some i =>
      rw [hfs] at h
      dsimp only at h
      by_cases hi : i = 0
      · subst hi
        have hcur := (findSub_some CRLF (l.drop pos) 0 hfs).1
        have hcur' : CRLF.isPrefixOf (l.drop pos) = true := by simpa using hcur
        refine ⟨pos - 2, crlf_splice l (pos - 2) hprev ?_⟩
        have hpe : pos - 2 + 2 = pos := by omega
        rw [hpe]
        exact hcur'
      · rw [if_neg hi] at h
        have hnext := (findSub_some CRLF (l.drop pos) i hfs).1
        rw [List.drop_drop] at hnext
        refine ih (pos + i + 2) _ _ r (by omega) ?_ h
        have hpe : pos + i + 2 - 2 = pos + i := by omega
        rw [hpe]
        exact hnext

set_option maxRecDepth 40000 in
/-- **C8 (confirmed).**  Parsing the exact bytes
`"HTTP/1.1 200 OK\r\nContent-Length: 2\r\n\r\nok"` with its full length 40
succeeds with status code 200 and a 2-byte body view equal to `"ok"`
(offset 38); and every input that does not contain the blank-line
end-of-headers terminator `"\r\n\r\n"` is rejected as malformed
(`http_parse_response` returns the error result), for any declared length. -/
theorem claim_C8 :
    http_parse_response (("HTTP/1.1 200 OK\r\nContent-Length: 2\r\n\r\nok").data) 40
        = some { status_code := 200, content_length := 2, chunked := false,
                 body_off := 38, body_length := 2 }
    ∧ ((("HTTP/1.1 200 OK\r\nContent-Length: 2\r\n\r\nok").data).drop 38).take 2 = ("ok").data
    ∧ (∀ (l : List Char) (rlen : Nat),
        findSub (("\r\n\r\n").data) l = none → http_parse_response l rlen = none) := by
  refine ⟨by decide, by decide, ?_⟩
  intro l rlen hterm
  simp only [http_parse_response]
  by_cases hr : rlen = 0
  · rw [if_pos hr]
  · rw [if_neg hr]
    cases hcr : findSub CRLF l with
    | none => rfl
    | some lineEnd =>
      dsimp only
      cases hsp : findChar ' ' l with
      | none => rfl
      | some sp =>
        dsimp only
        cases hph : parse_headers l (l.length + 1) (lineEnd + 2) 0 false with
        | none => rfl
        | some r =>
          exfalso
          have hcrlf := (findSub_some CRLF l lineEnd hcr).1
          obtain ⟨j, hj⟩ := parse_headers_finds_terminator l (l.length + 1) (lineEnd + 2)
            0 false r (by omega) (by
              have hpe : lineEnd + 2 - 2 = lineEnd := by omega
              rw [hpe]
              exact hcrlf) hph
          exact findSub_none (("\r\n\r\n").data) (by decide) l hterm j hj

/-- **C8 witness.**  An input missing the blank-line terminator is rejected. -/
theorem claim_C8_witness :
    http_parse_response (("HTTP/1.1 200 OK").data) 15 = none := by
  exact claim_C8.2.2 (("HTTP/1.1 200 OK").data) 15 (by decide)

/-! ## http_get_header truncation behaviour -/

theorem http_get_header_go_spec (name : List Char) (vbs : Nat) (hv : 1 ≤ vbs) :
    ∀ (fuel : Nat) (line out : List Char) (written : Nat),
      http_get_header_go name vbs fuel line = some (out, written) →
      written = out.length + 1 ∧ written ≤ vbs ∧ out.length ≤ vbs - 1
      ∧ ∃ value : List Char, out = value.take (vbs - 1)
          ∧ (vbs - 1 ≤ value.length → out.length = vbs - 1)
          ∧ (value.length < vbs → out = value) := by
  intro fuel
  induction fuel with
  | zero =>
    intro line out written h
    exact absurd h (by simp [http_get_header_go])
  | succ fuel ih =>
    intro line out written h
    cases line with
    | nil => exact absurd h (by simp [http_get_header_go])
    | cons c rest =>
      simp only [http_get_header_go] at h
      by_cases hm : (startsWithCI (c :: rest) name
          && (((c :: rest).drop name.length).head? == some ':')) = true
      · rw [if_pos hm] at h
        rw [if_neg (show ¬ vbs = 0 by omega)] at h
        by_cases hle : vbs ≤ (header_value_of_line (c :: rest) name).length
        · rw [if_pos hle] at h
          injection h with h
          rw [Prod.mk.injEq] at h
          obtain ⟨h1, h2⟩ := h
          have hlen : out.length = vbs - 1 := by
            rw [← h1, List.length_take]
            omega
          exact ⟨by omega, by omega, by omega, header_value_of_line (c :: rest) name,
            h1.symm, fun _ => hlen, fun hc => absurd hle (by omega)⟩
        · rw [if_neg hle] at h
          injection h with h
          rw [Prod.mk.injEq] at h
          obtain ⟨h1, h2⟩ := h
          have hvout : header_value_of_line (c :: rest) name = out := by
            rw [← h1, List.take_length]
          have hlen : out.length = (header_value_of_line (c :: rest) name).length := by
            rw [hvout]
          refine ⟨by omega, by omega, by omega, header_value_of_line (c :: rest) name,
            ?_, ?_, fun _ => hvout.symm⟩
          · rw [← hvout]
            exact (List.take_of_length_le (by omega)).symm
          · intro hge
            omega
      · rw [if_neg hm] at h
        cases hdw : (c :: rest).dropWhile (fun x => !(x == '\n')) with
        | nil =>
          rw [hdw] at h
          exact absurd h (by simp)
        | cons x tl =>
          rw [hdw] at h
          dsimp only at h
          exact ih tl out written h

/-- **C10 (amended).**  For `value_buffer_size ≥ 1`, whenever `http_get_header`
finds the header it writes at most `value_buffer_size` bytes to the output
(the stored value plus one NUL terminator, `written = out.length + 1 ≤ vbs`),
always NUL-terminates, and stores exactly the prefix of the header's value of
length `value_buffer_size - 1` when the value is that long or longer — still
returning success, so the caller cannot distinguish a truncated value from an
exact fit.  (The `value_buffer_size ≥ 1` restriction is forced by the
counterexample: at `value_buffer_size = 0` the `size_t` expression
`value_buffer_size - 1` wraps to `SIZE_T_MAX` and the code writes far more
than 0 bytes.) -/
theorem claim_C10 (buf name : List Char) (vbs : Nat) (out : List Char) (written : Nat)
    (hv : 1 ≤ vbs)
    (h : http_get_header buf name vbs = some (out, written)) :
    written = out.length + 1 ∧ written ≤ vbs ∧ out.length ≤ vbs - 1
    ∧ ∃ value : List Char, out = value.take (vbs - 1)
        ∧ (vbs - 1 ≤ value.length → out.length = vbs - 1)
        ∧ (value.length < vbs → out = value) := by
  exact http_get_header_go_spec name vbs hv (buf.length + 1) buf out written h

/-- **C10 witness.**  A 3-byte value buffer truncates the value `"abc"` to
`"ab"` (2 = `vbs - 1` bytes) plus NUL and still reports success. -/
theorem claim_C10_witness :
    (1 : Nat) ≤ 3
    ∧ (3 = (("ab").data).length + 1 ∧ 3 ≤ 3 ∧ (("ab").data).length ≤ 3 - 1
        ∧ ∃ value : List Char, ("ab").data = value.take (3 - 1)
            ∧ (3 - 1 ≤ value.length → (("ab").data).length = 3 - 1)
            ∧ (value.length < 3 → ("ab").data = value)) := by
  refine ⟨by decide, ?_⟩
  exact claim_C10 (("Date: abc\r\n").data) (("Date").data) 3 (("ab").data) 3
    (by decide) (by decide)

/-- **C10 counterexample.**  With `value_buffer_size = 0` the `size_t`
subtraction `value_buffer_size - 1` wraps to `SIZE_T_MAX`, so the code
attempts to store `SIZE_T_MAX + 1` bytes (value bytes plus NUL) into a 0-byte
buffer: "never writes more than value_buffer_size bytes" is false as
universally stated. -/
theorem claim_C10_counterexample :
    http_get_header (("Date: x\r\n").data) (("Date").data) 0
        = some ((("x").data), SIZE_T_MAX + 1)
    ∧ ¬ (SIZE_T_MAX + 1 ≤ 0) := by
  exact ⟨by decide, by decide⟩

/-! ## The structural fuel never matters

The two loops embedded with structural fuel (`parse_headers`,
`http_get_header_go`) are called with fuel exceeding the loop's possible
iteration count, so their fuel-exhaustion branch is dead: any two sufficient
fuels give the same result. -/

theorem parse_headers_fuel (l : List Char) :
    ∀ (f1 f2 pos : Nat) (cl : Int) (ch : Bool),
      l.length - pos < f1 → l.length - pos < f2 →
      parse_headers l f1 pos cl ch = parse_headers l f2 pos cl ch := by
  intro f1
  induction f1 with
  | zero =>
    intro f2 pos cl ch h1 h2
    exact absurd h1 (by omega)
  | succ f1 ih =>
    intro f2 pos cl ch h1 h2
    cases f2 with
    | zero => exact absurd h2 (by omega)
    | succ f2 =>
      simp only [parse_headers]
      cases hfs : findSub CRLF (l.drop pos) with
      | none => rfl
      | some i =>
        dsimp only
        by_cases hi : i = 0
        · rw [if_pos hi, if_pos hi]
        · rw [if_neg hi, if_neg hi]
          have hb := (findSub_some CRLF (l.drop pos) i hfs).2
          have hcl : CRLF.length = 2 := rfl
          rw [hcl, List.length_drop] at hb
          exact ih f2 (pos + i + 2) _ _ (by omega) (by omega)

theorem http_get_header_go_fuel (name : List Char) (vbs : Nat) :
    ∀ (f1 f2 : Nat) (line : List Char),
      line.length < f1 → line.length < f2 →
      http_get_header_go name vbs f1 line = http_get_header_go name vbs f2 line := by
  intro f1
  induction f1 with
  | zero =>
    intro f2 line h1 h2
    exact absurd h1 (by omega)
  | succ f1 ih =>
    intro f2 line h1 h2
    cases f2 with
    | zero => exact absurd h2 (by omega)
    | succ f2 =>
      cases line with
      | nil => rfl
      | cons c rest =>
        simp only [http_get_header_go]
        by_cases hm : (startsWithCI (c :: rest) name
            && (((c :: rest).drop name.length).head? == some ':')) = true
        · rw [if_pos hm, if_pos hm]
        · rw [if_neg hm, if_neg hm]
          cases hdw : (c :: rest).dropWhile (fun x => !(x == '\n')) with
          | nil => rfl
          | cons x tl =>
            dsimp only
            have hsuf : List.IsSuffix ((c :: rest).dropWhile (fun x => !(x == '\n')))
                (c :: rest) := List.dropWhile_suffix _
            have hle := hsuf.length_le
            rw [hdw] at hle
            simp only [List.length_cons] at hle h1 h2
            exact ih f2 tl (by omega) (by omega)
